import Mathlib

/-
Verification of the tg_parser crawler core: the session lease manager
(src/common/utils/nats/resource_manager.py), the range planner
(src/crawler/database/pg/schemas/telegram/collections.py), the message
iteration pipeline (src/crawler/procedures/parser.py) and the task
handlers (src/crawler/routes/new_channel.py, src/crawler/routes/schedule.py,
src/crawler/routes/manage_resource.py).

Datetimes are modelled as integers, KV keys as the session/resource id
carried after the configured key namespace (every key the manager writes
has the form <namespace><resource_id>), KV values as strings.
-/

namespace Crawler

/-! ### Association lists (the Python dicts `_states` and the KV bucket) -/

/-- Lookup in an association list keyed by `Nat` (first match wins). -/
def alGet {α : Type} (l : List (Nat × α)) (k : Nat) : Option α :=
  (l.find? (fun p => p.1 == k)).map (·.2)

/-- Replace the binding of `k` (first occurrence) or append it. -/
def alSet {α : Type} : List (Nat × α) → Nat → α → List (Nat × α)
  | [], k, v => [(k, v)]
  | (k', v') :: t, k, v =>
      if k' = k then (k, v) :: t else (k', v') :: alSet t k v

theorem alGet_nil {α : Type} (k : Nat) : alGet ([] : List (Nat × α)) k = none := rfl

theorem alGet_cons {α : Type} (k k' : Nat) (v : α) (t : List (Nat × α)) :
    alGet ((k', v) :: t) k = if k' = k then some v else alGet t k := by
  by_cases h : k' = k
  · simp only [alGet, if_pos h]
    rw [List.find?_cons_of_pos _ (by simp [h])]
    rfl
  · simp only [alGet, if_neg h]
    rw [List.find?_cons_of_neg _ (by simp [h])]

theorem alGet_alSet_self {α : Type} (l : List (Nat × α)) (k : Nat) (v : α) :
    alGet (alSet l k v) k = some v := by
  induction l with
  | nil => simp [alSet, alGet_cons]
  | cons p t ih =>
      obtain ⟨k', v'⟩ := p
      by_cases h : k' = k <;> simp [alSet, h, alGet_cons, ih]

theorem alGet_alSet_ne {α : Type} (l : List (Nat × α)) (k k' : Nat) (v : α)
    (h : k' ≠ k) : alGet (alSet l k v) k' = alGet l k' := by
  induction l with
  | nil =>
      rw [show alSet ([] : List (Nat × α)) k v = [(k, v)] from rfl,
          alGet_cons, if_neg (fun hh => h hh.symm), alGet_nil]
  | cons p t ih =>
      obtain ⟨k₀, v₀⟩ := p
      rw [show alSet ((k₀, v₀) :: t) k v
            = if k₀ = k then (k, v) :: t else (k₀, v₀) :: alSet t k v from rfl]
      by_cases h₀ : k₀ = k
      · rw [if_pos h₀, alGet_cons, alGet_cons,
            if_neg (fun hh => h hh.symm),
            if_neg (fun hh => h ((h₀.symm.trans hh).symm))]
      · rw [if_neg h₀, alGet_cons, alGet_cons, ih]

theorem mem_alSet {α : Type} (l : List (Nat × α)) (k : Nat) (v : α) (p : Nat × α)
    (hp : p ∈ alSet l k v) : p = (k, v) ∨ p ∈ l := by
  induction l with
  | nil => simpa [alSet] using hp
  | cons q t ih =>
      obtain ⟨k', v'⟩ := q
      by_cases h : k' = k
      · simp only [alSet, if_pos h] at hp
        rcases List.mem_cons.mp hp with h1 | h1
        · exact Or.inl h1
        · exact Or.inr (List.mem_cons_of_mem _ h1)
      · simp only [alSet, if_neg h] at hp
        rcases List.mem_cons.mp hp with h1 | h1
        · exact Or.inr (h1 ▸ List.mem_cons_self _ _)
        · rcases ih h1 with h2 | h2
          · exact Or.inl h2
          · exact Or.inr (List.mem_cons_of_mem _ h2)

theorem alGet_mem {α : Type} (l : List (Nat × α)) (k : Nat) (v : α)
    (h : alGet l k = some v) : (k, v) ∈ l := by
  induction l with
  | nil => simp [alGet] at h
  | cons p t ih =>
      obtain ⟨k', v'⟩ := p
      rw [alGet_cons] at h
      by_cases hk : k' = k
      · rw [if_pos hk] at h
        injection h with h
        subst hk; subst h
        exact List.mem_cons_self _ _
      · rw [if_neg hk] at h
        exact List.mem_cons_of_mem _ (ih h)

theorem alGet_eq_none {α : Type} (l : List (Nat × α)) (k : Nat)
    (h : alGet l k = none) : ∀ v, (k, v) ∉ l := by
  induction l with
  | nil => intro v hv; simp at hv
  | cons p t ih =>
      obtain ⟨k', v'⟩ := p
      rw [alGet_cons] at h
      intro v hv
      by_cases hk : k' = k
      · rw [if_pos hk] at h; exact Option.noConfusion h
      · rw [if_neg hk] at h
        rcases List.mem_cons.mp hv with h1 | h1
        · injection h1 with h2 _
          exact hk h2.symm
        · exact ih h v h1

/-! ### The KV gateway (NATS JetStream KV bucket, spec section 4.1)

The bucket is external to the repository; its contract is the one the
spec gives for the lease store gateway: `create` fails with
already-exists on a present key, `update` fails with not-found on an
absent key and with sequence-mismatch on a stale expected revision,
`purge` is idempotent, and TTL expiry is observable as a purge.
The error kinds mirror the Python exception hierarchy the manager
catches: the first four are `KeyValueError`s, `otherExc` stands for any
exception outside that family (timeouts, connection failures). -/

inductive KVErr
  | alreadyExists
  | sequenceMismatch
  | notFound
  | otherKV
  | otherExc
deriving DecidableEq, Repr

/-- Whether the error is in the `KeyValueError` family (the Python code
distinguishes `except KeyValueError` from `except Exception`). -/
def KVErr.isKVError : KVErr → Bool
  | .otherExc => false
  | _ => true

structure KVEntry where
  value : String
  revision : Nat
deriving DecidableEq, Repr

structure KVStore where
  entries : List (Nat × KVEntry)
  nextRev : Nat
deriving DecidableEq, Repr

def kvGet (kv : KVStore) (k : Nat) : Option KVEntry :=
  alGet kv.entries k

def kvCreate (kv : KVStore) (k : Nat) (v : String) :
    Except KVErr (Nat × KVStore) :=
  match kvGet kv k with
  | some _ => .error .alreadyExists
  | none =>
      .ok (kv.nextRev,
           { entries := alSet kv.entries k ⟨v, kv.nextRev⟩,
             nextRev := kv.nextRev + 1 })

def kvUpdate (kv : KVStore) (k : Nat) (v : String) (last : Nat) :
    Except KVErr (Nat × KVStore) :=
  match kvGet kv k with
  | none => .error .notFound
  | some e =>
      if e.revision ≠ last then .error .sequenceMismatch
      else
        .ok (kv.nextRev,
             { entries := alSet kv.entries k ⟨v, kv.nextRev⟩,
               nextRev := kv.nextRev + 1 })

/-- Idempotent removal; a TTL expiry has the same observable effect. -/
def kvPurge (kv : KVStore) (k : Nat) : KVStore :=
  { kv with entries := kv.entries.filter (fun p => p.1 ≠ k) }

/-- Fault-injected variants: `fault = some e` models the gateway call
raising `e` (store untouched); `fault = none` is the store-determined
behaviour. -/
def kvCreateF (fault : Option KVErr) (kv : KVStore) (k : Nat) (v : String) :
    Except KVErr (Nat × KVStore) :=
  match fault with
  | some e => .error e
  | none => kvCreate kv k v

def kvUpdateF (fault : Option KVErr) (kv : KVStore) (k : Nat) (v : String)
    (last : Nat) : Except KVErr (Nat × KVStore) :=
  match fault with
  | some e => .error e
  | none => kvUpdate kv k v last

def kvPurgeF (fault : Option KVErr) (kv : KVStore) (k : Nat) :
    Except KVErr KVStore :=
  match fault with
  | some e => .error e
  | none => .ok (kvPurge kv k)

/-! ### The session lease manager (`ResourceLockManager`)

Shallow embedding of `src/common/utils/nats/resource_manager.py`.
`_current` holds a reference to the `ResourceState` object that also
lives in `_states`; the embedding keeps the resource id and reads the
shared object through the `states` map. -/

structure ResourceState where
  resource_id : Nat
  version : Option Nat := none
  locked : Bool := false
deriving DecidableEq, Repr

structure RLM where
  instance_id : String
  states : List (Nat × ResourceState)
  current : Option Nat := none
deriving DecidableEq, Repr

/-- `ResourceLockManager.__init__`: one free state per configured id. -/
def initRLM (resource_ids : List Nat) (instance_id : String) : RLM :=
  { instance_id := instance_id,
    states := resource_ids.map (fun rid => (rid, ⟨rid, none, false⟩)),
    current := none }

/-- `self._states.get(rid)` followed by creating a fresh state when the
id is unknown (the pattern used by `lock` and `on_kv_event`). -/
def getOrNew (m : RLM) (rid : Nat) : ResourceState :=
  (alGet m.states rid).getD ⟨rid, none, false⟩

/-- Replace the manager's state map (the in-place dict mutation). -/
def withStates (m : RLM) (s : List (Nat × ResourceState)) : RLM :=
  { m with states := s }

/-- `ResourceLockManager.lock`: attempt `kv.create`; on any exception
log and return `False`; on success record `(version, locked)` locally. -/
def lock (fault : Option KVErr) (kv : KVStore) (m : RLM) (rid : Nat) :
    Bool × KVStore × RLM :=
  match kvCreateF fault kv rid m.instance_id with
  | .error _ => (false, kv, m)
  | .ok (ver, kv') =>
      let st := getOrNew m rid
      (true, kv',
       { m with states :=
           alSet m.states rid { st with version := some ver, locked := true } })

/-- Local half of `unlock`: set the state free when the id is known. -/
def setFree (m : RLM) (rid : Nat) : RLM :=
  match alGet m.states rid with
  | none => m
  | some st =>
      { m with states :=
          alSet m.states rid { st with version := none, locked := false } }

/-- `ResourceLockManager.unlock`: `kv.purge`, catching only
`KeyValueError`; afterwards the local state is set free.  An exception
outside the `KeyValueError` family propagates before the local update. -/
def unlock (fault : Option KVErr) (kv : KVStore) (m : RLM) (rid : Nat) :
    Except KVErr (KVStore × RLM) :=
  match kvPurgeF fault kv rid with
  | .error e =>
      if e.isKVError then .ok (kv, setFree m rid) else .error e
  | .ok kv' => .ok (kv', setFree m rid)

/-- `ResourceLockManager._reload_states`: list the bucket, reset every
local state to free, then mark every listed key locked at the revision
`kv.get` returns. -/
def resetState (st : ResourceState) : ResourceState :=
  { st with version := none, locked := false }

def applyEntries (acc : List (Nat × ResourceState)) :
    List (Nat × KVEntry) → List (Nat × ResourceState)
  | [] => acc
  | (k, e) :: rest =>
      applyEntries
        (alSet acc k
          ({ (alGet acc k).getD ⟨k, none, false⟩ with
             version := some e.revision, locked := true }))
        rest

def reloadStates (kv : KVStore) (m : RLM) : RLM :=
  { m with states :=
      applyEntries (m.states.map (fun p => (p.1, resetState p.2))) kv.entries }

/-- Local half of a successful `refresh`: only the version is written
(`self._current.version = ver`). -/
def setVersion (m : RLM) (rid : Nat) (ver : Nat) : RLM :=
  match alGet m.states rid with
  | none => m
  | some st =>
      { m with states := alSet m.states rid { st with version := some ver } }

/-- The body of `refresh` once a current lease with a known revision is
at hand: `kv.update(key, payload, last=version)`; on
`KeyWrongLastSequenceError` reload all states; on any other
`KeyValueError` log and return unchanged; other exceptions propagate;
on success only the stored revision is advanced. -/
def refreshUpd (fault : Option KVErr) (kv : KVStore) (m : RLM)
    (rid : Nat) (last : Nat) : Except KVErr (KVStore × RLM) :=
  match kvUpdateF fault kv rid m.instance_id last with
  | .error .sequenceMismatch => .ok (kv, reloadStates kv m)
  | .error e => if e.isKVError then .ok (kv, m) else .error e
  | .ok (ver, kv') => .ok (kv', setVersion m rid ver)

def refreshCur (fault : Option KVErr) (kv : KVStore) (m : RLM)
    (rid : Nat) : Except KVErr (KVStore × RLM) :=
  match (alGet m.states rid).bind (fun s => s.version) with
  | none => .ok (kv, m)
  | some last => refreshUpd fault kv m rid last

/-- `ResourceLockManager.refresh`: no-op without a current lease or a
known revision, otherwise the update body above. -/
def refresh (fault : Option KVErr) (kv : KVStore) (m : RLM) :
    Except KVErr (KVStore × RLM) :=
  match m.current with
  | none => .ok (kv, m)
  | some rid => refreshCur fault kv m rid

theorem refresh_eq_cur (fault : Option KVErr) (kv : KVStore) (m : RLM)
    (rid : Nat) (hc : m.current = some rid) :
    refresh fault kv m = refreshCur fault kv m rid := by
  unfold refresh
  rw [hc]

theorem refreshCur_eq_upd (fault : Option KVErr) (kv : KVStore) (m : RLM)
    (rid : Nat) (v : Nat)
    (hbind : (alGet m.states rid).bind (fun s => s.version) = some v) :
    refreshCur fault kv m rid = refreshUpd fault kv m rid v := by
  unfold refreshCur
  rw [hbind]

/-- KV watch operations as nats delivers them: a put event carries no
operation marker (`entry.operation is None`); deletes and purges carry
`DEL` / `PURGE`.  The handler's annotation also admits a literal `PUT`. -/
inductive KvOp
  | PUT
  | DEL
  | PURGE
deriving DecidableEq, Repr

/-- `ResourceLockManager.on_kv_event`.  `key = none` models a key that
does not carry the manager's namespace or whose suffix is not an
integer (the broad `except` swallows the parse failure). -/
def on_kv_event (m : RLM) : Option Nat → Option KvOp → Nat → RLM
  | none, _, _ => m
  | some rid, op, revision =>
      if op = some .DEL ∨ op = some .PURGE then
        withStates m
          (alSet m.states rid
            ({ getOrNew m rid with version := none, locked := false }))
      else if op = none then
        withStates m
          (alSet m.states rid
            ({ getOrNew m rid with
               version := some revision, locked := true }))
      else
        withStates m (alSet m.states rid (getOrNew m rid))

theorem on_kv_event_put (m : RLM) (rid revision : Nat) :
    on_kv_event m (some rid) none revision
      = withStates m
          (alSet m.states rid
            ({ getOrNew m rid with
               version := some revision, locked := true })) := rfl

theorem on_kv_event_del (m : RLM) (rid revision : Nat) (op : Option KvOp)
    (h : op = some .DEL ∨ op = some .PURGE) :
    on_kv_event m (some rid) op revision
      = withStates m
          (alSet m.states rid
            ({ getOrNew m rid with version := none, locked := false })) := by
  rcases h with h | h <;> subst h <;> rfl

theorem on_kv_event_put_literal (m : RLM) (rid revision : Nat) :
    on_kv_event m (some rid) (some .PUT) revision
      = withStates m (alSet m.states rid (getOrNew m rid)) := rfl

/-- `update_keys_task` (src/crawler/routes/manage_resource.py): the KV
watch subscriber drops every event whose decoded value differs from the
configured `APP_NAME` before forwarding to `on_kv_event`. -/
def update_keys_task (app_name : String) (msgValue : String)
    (key : Option Nat) (op : Option KvOp) (revision : Nat) (m : RLM) : RLM :=
  if msgValue ≠ app_name then m else on_kv_event m key op revision

/-- One step of `update_resources`' additions: register an unseen id
with a fresh free state. -/
def addMissing (acc : RLM) (rid : Nat) : RLM :=
  match alGet acc.states rid with
  | some _ => acc
  | none => withStates acc (alSet acc.states rid ⟨rid, none, false⟩)

/-- `ResourceLockManager.update_resources`: add unseen ids as free,
remove ids outside the new set only when they are locally unlocked. -/
def update_resources (m : RLM) (new_ids : List Nat) : RLM :=
  withStates (new_ids.foldl addMissing m)
    ((new_ids.foldl addMissing m).states.filter
      (fun p => p.1 ∈ new_ids ∨ p.2.locked))

/-! ### C1 — lease CAS mutual exclusion -/

/-- A sequence of `lock` attempts on the same key by a list of managers,
threading the store. -/
def acquireChain (kv : KVStore) (s : Nat) : List RLM → List Bool
  | [] => []
  | m :: ms =>
      let r := lock none kv m s
      r.1 :: acquireChain r.2.1 s ms

theorem alGet_filter_ne {α : Type} (l : List (Nat × α)) (k : Nat) :
    alGet (l.filter (fun p => p.1 ≠ k)) k = none := by
  induction l with
  | nil => rfl
  | cons p t ih =>
      obtain ⟨k', v'⟩ := p
      by_cases h : k' = k
      · simpa [List.filter_cons, h] using ih
      · simpa [List.filter_cons, h, alGet_cons] using ih

theorem lock_of_present (kv : KVStore) (m : RLM) (s : Nat) (e : KVEntry)
    (h : kvGet kv s = some e) : lock none kv m s = (false, kv, m) := by
  simp [lock, kvCreateF, kvCreate, h]

theorem lock_of_absent_succeeds (kv : KVStore) (m : RLM) (s : Nat)
    (h : kvGet kv s = none) : (lock none kv m s).1 = true := by
  simp [lock, kvCreateF, kvCreate, h]

theorem lock_of_absent_sets_key (kv : KVStore) (m : RLM) (s : Nat)
    (h : kvGet kv s = none) :
    kvGet (lock none kv m s).2.1 s = some ⟨m.instance_id, kv.nextRev⟩ := by
  simp only [lock, kvCreateF, kvCreate, h]
  simp [kvGet, alGet_alSet_self]

theorem acquireChain_present (kv : KVStore) (s : Nat) (e : KVEntry)
    (h : kvGet kv s = some e) (ms : List RLM) :
    acquireChain kv s ms = ms.map (fun _ => false) := by
  induction ms with
  | nil => rfl
  | cons m ms ih =>
      simp [acquireChain, lock_of_present kv m s e h, ih]

theorem kvGet_kvPurge_self (kv : KVStore) (s : Nat) :
    kvGet (kvPurge kv s) s = none :=
  alGet_filter_ne kv.entries s

theorem unlock_eq_purge (kv : KVStore) (m : RLM) (s : Nat) :
    unlock none kv m s = .ok (kvPurge kv s, setFree m s) := rfl

/-- C1: with the key for session `s` absent, the first `acquire` returns
true; a second `acquire` against the resulting store returns false and
leaves the store unchanged, hence every later sequence of `acquire`
attempts returns only false, until either the holder's `release`
(a purge) or the TTL expiry (observable as a purge) removes the key,
after which an `acquire` succeeds again.  Among two sequentially
arbitrated `acquire` calls exactly the first-committed one wins. -/
theorem lock_mutual_exclusion (kv : KVStore) (mA : RLM) (s : Nat)
    (h : kvGet kv s = none) :
    (lock none kv mA s).1 = true ∧
    (∀ mB : RLM,
        lock none (lock none kv mA s).2.1 mB s
          = (false, (lock none kv mA s).2.1, mB)) ∧
    (∀ ms : List RLM,
        acquireChain (lock none kv mA s).2.1 s ms
          = ms.map (fun _ => false)) ∧
    (∀ mB : RLM,
        unlock none (lock none kv mA s).2.1 (lock none kv mA s).2.2 s
          = .ok (kvPurge (lock none kv mA s).2.1 s,
                 setFree (lock none kv mA s).2.2 s) ∧
        kvGet (kvPurge (lock none kv mA s).2.1 s) s = none ∧
        (lock none (kvPurge (lock none kv mA s).2.1 s) mB s).1 = true) := by
  have hset := lock_of_absent_sets_key kv mA s h
  refine ⟨lock_of_absent_succeeds kv mA s h, ?_, ?_, ?_⟩
  · intro mB
    exact lock_of_present _ mB s _ hset
  · intro ms
    exact acquireChain_present _ s _ hset ms
  · intro mB
    refine ⟨unlock_eq_purge _ _ s, kvGet_kvPurge_self _ s, ?_⟩
    exact lock_of_absent_succeeds _ mB s (kvGet_kvPurge_self _ s)

/-- C1 witness: concrete empty bucket, session 7, two workers. -/
theorem lock_mutual_exclusion_witness :
    (lock none ⟨[], 0⟩ (initRLM [7] "worker-a") 7).1 = true ∧
    (lock none (lock none ⟨[], 0⟩ (initRLM [7] "worker-a") 7).2.1
        (initRLM [7] "worker-b") 7).1 = false :=
  have h := lock_mutual_exclusion ⟨[], 0⟩ (initRLM [7] "worker-a") 7 rfl
  ⟨h.1, by rw [h.2.1 (initRLM [7] "worker-b")]⟩

/-! ### C2 — the range planner
(`TelegramChannelCollection.check_overlap` / `find_non_overlapping_ranges`)

Datetimes are integers; a collection record contributes its
`(from_datetime, to_datetime)` pair. -/

/-- The three-way SQL overlap condition of `check_overlap`: the request
start falls inside the record, the request end falls inside the record,
or the request covers the record. -/
def overlapTest (f t : Int) (r : Int × Int) : Bool :=
  (decide (r.1 ≤ f) && decide (f ≤ r.2)) ||
  (decide (r.1 ≤ t) && decide (t ≤ r.2)) ||
  (decide (f ≤ r.1) && decide (r.2 ≤ t))

theorem overlapTest_iff (f t : Int) (r : Int × Int) :
    overlapTest f t r = true ↔
      ((r.1 ≤ f ∧ f ≤ r.2) ∨ (r.1 ≤ t ∧ t ≤ r.2) ∨ (f ≤ r.1 ∧ r.2 ≤ t)) := by
  simp [overlapTest, or_assoc]

/-- `sorted(overlapping, key=lambda x: x.from_datetime)`. -/
def insertRec (r : Int × Int) : List (Int × Int) → List (Int × Int)
  | [] => [r]
  | x :: xs => if r.1 ≤ x.1 then r :: x :: xs else x :: insertRec r xs

def sortRecs : List (Int × Int) → List (Int × Int)
  | [] => []
  | x :: xs => insertRec x (sortRecs xs)

/-- The cursor sweep of `find_non_overlapping_ranges`: emit the gap
before each record when there is one, advance the cursor to the end of
the record when it is larger, finally emit the tail gap. -/
def sweepRanges (c t : Int) : List (Int × Int) → List (Int × Int)
  | [] => if c < t then [(c, t)] else []
  | (rf, rt) :: rs =>
      (if c < rf then [(c, rf)] else []) ++ sweepRanges (max c rt) t rs

/-- `TelegramChannelCollection.find_non_overlapping_ranges`. -/
def find_non_overlapping_ranges (f t : Int) (recs : List (Int × Int)) :
    List (Int × Int) :=
  let overlapping := recs.filter (overlapTest f t)
  if overlapping.isEmpty then [(f, t)]
  else sweepRanges f t (sortRecs overlapping)

theorem mem_insertRec (r x : Int × Int) (l : List (Int × Int)) :
    x ∈ insertRec r l ↔ x = r ∨ x ∈ l := by
  induction l with
  | nil => simp [insertRec]
  | cons y t ih =>
      by_cases h : r.1 ≤ y.1
      · simp [insertRec, h]
      · simp only [insertRec, if_neg h, List.mem_cons, ih]
        tauto

theorem mem_sortRecs (x : Int × Int) (l : List (Int × Int)) :
    x ∈ sortRecs l ↔ x ∈ l := by
  induction l with
  | nil => simp [sortRecs]
  | cons y t ih => simp [sortRecs, mem_insertRec, ih]

theorem sweep_lb (rs : List (Int × Int)) :
    ∀ c t : Int, ∀ i ∈ sweepRanges c t rs, c ≤ i.1 := by
  induction rs with
  | nil =>
      intro c t i hi
      simp only [sweepRanges] at hi
      split at hi
      · rw [List.mem_singleton] at hi
        subst hi; exact le_refl c
      · simp at hi
  | cons r rs ih =>
      intro c t i hi
      obtain ⟨rf, rt⟩ := r
      simp only [sweepRanges] at hi
      rcases List.mem_append.mp hi with h1 | h1
      · split at h1
        · rw [List.mem_singleton] at h1
          subst h1; exact le_refl c
        · simp at h1
      · exact le_trans (le_max_left c rt) (ih (max c rt) t i h1)

theorem sweep_bounds (rs : List (Int × Int)) :
    ∀ c t : Int, (∀ r ∈ rs, r.1 ≤ t) →
      ∀ i ∈ sweepRanges c t rs, i.1 < i.2 ∧ i.2 ≤ t := by
  induction rs with
  | nil =>
      intro c t _ i hi
      simp only [sweepRanges] at hi
      split at hi
      · rw [List.mem_singleton] at hi
        subst hi
        exact ⟨by assumption, le_refl t⟩
      · simp at hi
  | cons r rs ih =>
      intro c t hle i hi
      obtain ⟨rf, rt⟩ := r
      simp only [sweepRanges] at hi
      rcases List.mem_append.mp hi with h1 | h1
      · split at h1
        · rw [List.mem_singleton] at h1
          subst h1
          exact ⟨by assumption, hle (rf, rt) (List.mem_cons_self _ _)⟩
        · simp at h1
      · exact ih (max c rt) t
          (fun r hr => hle r (List.mem_cons_of_mem _ hr)) i h1

theorem sweep_pairwise (rs : List (Int × Int)) :
    ∀ c t : Int, (∀ r ∈ rs, r.1 ≤ r.2) →
      List.Pairwise (fun i j : Int × Int => i.2 ≤ j.1)
        (sweepRanges c t rs) := by
  induction rs with
  | nil =>
      intro c t _
      simp only [sweepRanges]
      split
      · exact List.pairwise_singleton _ _
      · exact List.Pairwise.nil
  | cons r rs ih =>
      intro c t hval
      obtain ⟨rf, rt⟩ := r
      simp only [sweepRanges]
      apply List.pairwise_append.mpr
      refine ⟨?_, ih (max c rt) t
          (fun r hr => hval r (List.mem_cons_of_mem _ hr)), ?_⟩
      · split
        · exact List.pairwise_singleton _ _
        · exact List.Pairwise.nil
      · intro a ha b hb
        have hb1 : max c rt ≤ b.1 := sweep_lb rs (max c rt) t b hb
        have hrec : rf ≤ rt := hval (rf, rt) (List.mem_cons_self _ _)
        split at ha
        · rw [List.mem_singleton] at ha
          subst ha
          exact le_trans (le_trans hrec (le_max_right c rt)) hb1
        · simp at ha

theorem sweep_cover_lt (rs : List (Int × Int)) :
    ∀ c t x : Int, c ≤ x → x < t →
      (∃ i ∈ sweepRanges c t rs, i.1 ≤ x ∧ x ≤ i.2) ∨
      (∃ r ∈ rs, r.1 ≤ x ∧ x ≤ r.2) := by
  induction rs with
  | nil =>
      intro c t x hc hx
      left
      refine ⟨(c, t), ?_, hc, le_of_lt hx⟩
      simp only [sweepRanges]
      rw [if_pos (lt_of_le_of_lt hc hx)]
      exact List.mem_singleton.mpr rfl
  | cons r rs ih =>
      intro c t x hc hx
      obtain ⟨rf, rt⟩ := r
      by_cases hin : rf ≤ x ∧ x ≤ rt
      · exact Or.inr ⟨(rf, rt), List.mem_cons_self _ _, hin⟩
      · by_cases hlt : x < rf
        · left
          refine ⟨(c, rf), ?_, hc, le_of_lt hlt⟩
          simp only [sweepRanges]
          apply List.mem_append.mpr
          left
          rw [if_pos (lt_of_le_of_lt hc hlt)]
          exact List.mem_singleton.mpr rfl
        · have hxrf : rf ≤ x := le_of_not_lt hlt
          have hxrt : rt < x := by
            rcases not_and_or.mp hin with h | h
            · exact absurd hxrf h
            · exact lt_of_not_le h
          have hmax : max c rt ≤ x := max_le hc (le_of_lt hxrt)
          rcases ih (max c rt) t x hmax hx with h | ⟨r, hr, hrx⟩
          · left
            obtain ⟨i, hi, hix⟩ := h
            refine ⟨i, ?_, hix⟩
            simp only [sweepRanges]
            exact List.mem_append.mpr (Or.inr hi)
          · exact Or.inr ⟨r, List.mem_cons_of_mem _ hr, hrx⟩

theorem sweep_cover_top (rs : List (Int × Int)) :
    ∀ c t : Int, (∀ r ∈ rs, r.1 ≤ t) → c < t →
      (∃ i ∈ sweepRanges c t rs, i.1 ≤ t ∧ t ≤ i.2) ∨
      (∃ r ∈ rs, r.1 ≤ t ∧ t ≤ r.2) := by
  induction rs with
  | nil =>
      intro c t _ hct
      left
      refine ⟨(c, t), ?_, le_of_lt hct, le_refl t⟩
      simp only [sweepRanges]
      rw [if_pos hct]
      exact List.mem_singleton.mpr rfl
  | cons r rs ih =>
      intro c t hle hct
      obtain ⟨rf, rt⟩ := r
      by_cases hrt : t ≤ rt
      · exact Or.inr ⟨(rf, rt), List.mem_cons_self _ _,
          hle (rf, rt) (List.mem_cons_self _ _), hrt⟩
      · have hmax : max c rt < t := max_lt hct (lt_of_not_le hrt)
        rcases ih (max c rt) t
            (fun r hr => hle r (List.mem_cons_of_mem _ hr)) hmax with
          h | ⟨r, hr, hrx⟩
        · left
          obtain ⟨i, hi, hix⟩ := h
          refine ⟨i, ?_, hix⟩
          simp only [sweepRanges]
          exact List.mem_append.mpr (Or.inr hi)
        · exact Or.inr ⟨r, List.mem_cons_of_mem _ hr, hrx⟩

/-- C2: for a request `[f, t]` (`f ≤ t`) and any set of collection
records (each with `from_datetime ≤ to_datetime`, the data-model
invariant of §3), the planner returns intervals that are pairwise
non-overlapping (each ends no later than the next begins), each
contained in `[f, t]`, and whose union together with the records'
intervals clipped to `[f, t]` is exactly `[f, t]`. -/
theorem fnor_of_isEmpty (f t : Int) (recs : List (Int × Int))
    (h : (recs.filter (overlapTest f t)).isEmpty = true) :
    find_non_overlapping_ranges f t recs = [(f, t)] := by
  unfold find_non_overlapping_ranges
  simp [h]

theorem fnor_of_not_isEmpty (f t : Int) (recs : List (Int × Int))
    (h : (recs.filter (overlapTest f t)).isEmpty = false) :
    find_non_overlapping_ranges f t recs
      = sweepRanges f t (sortRecs (recs.filter (overlapTest f t))) := by
  unfold find_non_overlapping_ranges
  simp [h]

theorem find_non_overlapping_ranges_correct (f t : Int)
    (recs : List (Int × Int)) (hft : f ≤ t)
    (hval : ∀ r ∈ recs, r.1 ≤ r.2) :
    List.Pairwise (fun i j : Int × Int => i.2 ≤ j.1)
      (find_non_overlapping_ranges f t recs) ∧
    (∀ i ∈ find_non_overlapping_ranges f t recs,
        f ≤ i.1 ∧ i.1 ≤ i.2 ∧ i.2 ≤ t) ∧
    (∀ x : Int, (f ≤ x ∧ x ≤ t) ↔
      ((∃ i ∈ find_non_overlapping_ranges f t recs, i.1 ≤ x ∧ x ≤ i.2) ∨
       (∃ r ∈ recs, f ≤ x ∧ x ≤ t ∧ r.1 ≤ x ∧ x ≤ r.2))) := by
  classical
  have hmem_sf : ∀ r, r ∈ sortRecs (recs.filter (overlapTest f t)) ↔
      r ∈ recs ∧ overlapTest f t r = true := by
    intro r
    rw [mem_sortRecs, List.mem_filter]
  have hle_t : ∀ r ∈ sortRecs (recs.filter (overlapTest f t)), r.1 ≤ t := by
    intro r hr
    have hr' := (hmem_sf r).mp hr
    have hcase := (overlapTest_iff f t r).mp hr'.2
    have hvr := hval r hr'.1
    rcases hcase with ⟨h1, _⟩ | ⟨h1, _⟩ | ⟨_, h2⟩
    · exact le_trans h1 hft
    · exact h1
    · exact le_trans hvr h2
  have hval_sort : ∀ r ∈ sortRecs (recs.filter (overlapTest f t)),
      r.1 ≤ r.2 := by
    intro r hr
    exact hval r ((hmem_sf r).mp hr).1
  cases hempty : (recs.filter (overlapTest f t)).isEmpty
  · rw [fnor_of_not_isEmpty f t recs hempty]
    obtain ⟨r₀, hr₀⟩ : ∃ r₀, r₀ ∈ recs.filter (overlapTest f t) := by
      cases hcases : recs.filter (overlapTest f t) with
      | nil => rw [hcases] at hempty; simp at hempty
      | cons a l => exact ⟨a, List.mem_cons_self _ _⟩
    refine ⟨sweep_pairwise _ f t hval_sort, ?_, ?_⟩
    · intro i hi
      have h1 := sweep_lb _ f t i hi
      have h2 := sweep_bounds _ f t hle_t i hi
      exact ⟨h1, le_of_lt h2.1, h2.2⟩
    · intro x
      constructor
      · intro hx
        by_cases hxt : x < t
        · rcases sweep_cover_lt _ f t x hx.1 hxt with h | ⟨r, hr, hrx⟩
          · exact Or.inl h
          · exact Or.inr ⟨r, ((hmem_sf r).mp hr).1, hx.1, hx.2, hrx⟩
        · have hxt' : x = t := le_antisymm hx.2 (le_of_not_lt hxt)
          by_cases hftlt : f < t
          · rcases sweep_cover_top _ f t hle_t hftlt with h | ⟨r, hr, hrx⟩
            · obtain ⟨i, hi, hi1, hi2⟩ := h
              exact Or.inl ⟨i, hi, by omega, by omega⟩
            · obtain ⟨hr1, hr2⟩ := hrx
              exact Or.inr ⟨r, ((hmem_sf r).mp hr).1, hx.1, hx.2,
                by omega, by omega⟩
          · have hfx : f = t := le_antisymm hft (le_of_not_lt hftlt)
            have hrmem := List.mem_filter.mp hr₀
            have hcase := (overlapTest_iff f t r₀).mp hrmem.2
            have hvr := hval r₀ hrmem.1
            refine Or.inr ⟨r₀, hrmem.1, hx.1, hx.2, ?_, ?_⟩
            · rcases hcase with ⟨h1, _⟩ | ⟨h1, _⟩ | ⟨h1, h2⟩
              · omega
              · omega
              · omega
            · rcases hcase with ⟨_, h2⟩ | ⟨_, h2⟩ | ⟨h1, h2⟩
              · omega
              · omega
              · omega
      · rintro (⟨i, hi, hix⟩ | ⟨r, _, hx1, hx2, _⟩)
        · have h1 := sweep_lb _ f t i hi
          have h2 := sweep_bounds _ f t hle_t i hi
          exact ⟨le_trans h1 hix.1, le_trans hix.2 h2.2⟩
        · exact ⟨hx1, hx2⟩
  · rw [fnor_of_isEmpty f t recs hempty]
    refine ⟨List.pairwise_singleton _ _, ?_, ?_⟩
    · intro i hi
      rw [List.mem_singleton] at hi
      subst hi
      exact ⟨le_refl f, hft, le_refl t⟩
    · intro x
      constructor
      · intro hx
        exact Or.inl ⟨(f, t), List.mem_singleton.mpr rfl, hx.1, hx.2⟩
      · rintro (⟨i, hi, hix⟩ | ⟨r, _, hx1, hx2, _⟩)
        · rw [List.mem_singleton] at hi
          subst hi
          exact hix
        · exact ⟨hx1, hx2⟩

/-- C2 witness: the spec's "planner with gaps" scenario. -/
theorem find_non_overlapping_ranges_witness :
    find_non_overlapping_ranges (-30) 210 [(0, 60), (120, 180)]
        = [(-30, 0), (60, 120), (180, 210)] ∧
    List.Pairwise (fun i j : Int × Int => i.2 ≤ j.1)
      (find_non_overlapping_ranges (-30) 210 [(0, 60), (120, 180)]) :=
  ⟨by decide,
   (find_non_overlapping_ranges_correct (-30) 210 [(0, 60), (120, 180)]
      (by decide) (by decide)).1⟩

/-! ### The message iteration pipeline
(`src/crawler/procedures/parser.py` and the per-range handler body of
`src/crawler/routes/new_channel.py` / `src/crawler/routes/schedule.py`) -/

structure TGMsg where
  id : Nat
  date : Int
deriving DecidableEq, Repr

structure TGMetadata where
  from_message_id : Option Nat := none
  to_message_id : Option Nat := none
  from_datetime : Option Int := none
  to_datetime : Option Int := none
  count : Nat := 0
deriving DecidableEq, Repr

/-- `TelegramMessageMetadata.update_message`: the first message seen
fixes `from_message_id` / `from_datetime`, every message overwrites
`to_message_id` / `to_datetime` and bumps `count`. -/
def update_message (md : TGMetadata) (message_id : Nat)
    (message_date : Int) : TGMetadata :=
  let md1 :=
    if md.from_message_id = none then
      { md with from_message_id := some message_id,
                from_datetime := some message_date }
    else md
  { md1 with to_message_id := some message_id,
             to_datetime := some message_date,
             count := md1.count + 1 }

structure IterResult where
  yielded : List TGMsg
  md : TGMetadata
  broke : Bool
deriving DecidableEq, Repr

/-- The loop of `_iterate_messages` over the client's message stream
(`iter_messages(..., reverse=False)`, newest first), with
`_process_message`: a message dated at or after `from_datetime` is
accumulated and yielded; the first older message breaks the loop. -/
def iterLoop (from_datetime : Int) (md : TGMetadata) :
    List TGMsg → IterResult
  | [] => ⟨[], md, false⟩
  | m :: rest =>
      if from_datetime ≤ m.date then
        let md' := update_message md m.id m.date
        let r := iterLoop from_datetime md' rest
        ⟨m :: r.yielded, r.md, r.broke⟩
      else ⟨[], md, true⟩

structure CollectionRecord where
  entity_id : Nat
  from_message_id : Nat
  to_message_id : Nat
  from_datetime : Int
  to_datetime : Int
  messages_count : Nat
deriving DecidableEq, Repr

/-- `TelegramChannelCollection.create_collection_record` stores exactly
the fields it is given; neither it nor the schema checks an ordering
constraint between the `from_*` and `to_*` bounds. -/
def create_collection_record (entity_id from_message_id to_message_id : Nat)
    (from_datetime to_datetime : Int) (messages_count : Nat) :
    CollectionRecord :=
  ⟨entity_id, from_message_id, to_message_id,
   from_datetime, to_datetime, messages_count⟩

inductive CrawlErr
  | noMessages
  | floodWait
deriving DecidableEq, Repr

/-- `_iterate_messages` composed with `crawl_messages`: after the loop,
zero collected messages raise `ValueError`; a `FloodWaitError` raised by
the client after the delivered prefix (`flood = true`, only reachable
when the loop did not break first) makes `crawl_messages` yield the
`(None, metadata)` sentinel when `count > 0` and re-raise otherwise
(`_handle_flood_wait_error`). -/
def crawl_messages (msgs : List TGMsg) (flood : Bool)
    (from_datetime : Int) :
    Except CrawlErr (List (Option TGMsg) × TGMetadata) :=
  if (iterLoop from_datetime {} msgs).broke = false ∧ flood = true then
    if (iterLoop from_datetime {} msgs).md.count > 0 then
      .ok ((iterLoop from_datetime {} msgs).yielded.map some ++ [none],
           (iterLoop from_datetime {} msgs).md)
    else .error .floodWait
  else
    if (iterLoop from_datetime {} msgs).md.count = 0 then
      .error .noMessages
    else
      .ok ((iterLoop from_datetime {} msgs).yielded.map some,
           (iterLoop from_datetime {} msgs).md)

inductive AckAction
  | ack
  | nack
deriving DecidableEq, Repr

/-- The handler's `async for` counts messages until the sentinel
(`if message_dict is None: break`). -/
def countBeforeSentinel : List (Option TGMsg) → Nat
  | [] => 0
  | none :: _ => 0
  | some _ :: rest => countBeforeSentinel rest + 1

structure HandlerOutcome where
  recordWritten : Bool
  messageCounter : Nat
  action : AckAction
deriving DecidableEq, Repr

/-- The per-range handler body shared by `handle_new_channels` and
`handle_schedule`: iterate the crawl stream, break on the sentinel,
write a collection record iff `message_counter > 0`, then ack; any
exception escaping the iteration reaches the handler's `except` clause,
which nacks without writing a record. -/
def handle_collect (msgs : List TGMsg) (flood : Bool)
    (from_datetime : Int) : HandlerOutcome :=
  match crawl_messages msgs flood from_datetime with
  | .error _ => ⟨false, 0, .nack⟩
  | .ok (stream, _) =>
      ⟨decide (countBeforeSentinel stream > 0),
       countBeforeSentinel stream, .ack⟩

theorem handle_collect_of_error (msgs : List TGMsg) (flood : Bool)
    (from_datetime : Int) (e : CrawlErr)
    (h : crawl_messages msgs flood from_datetime = .error e) :
    handle_collect msgs flood from_datetime = ⟨false, 0, .nack⟩ := by
  unfold handle_collect
  rw [h]

theorem handle_collect_of_ok (msgs : List TGMsg) (flood : Bool)
    (from_datetime : Int) (stream : List (Option TGMsg)) (md : TGMetadata)
    (h : crawl_messages msgs flood from_datetime = .ok (stream, md)) :
    handle_collect msgs flood from_datetime
      = ⟨decide (countBeforeSentinel stream > 0),
         countBeforeSentinel stream, .ack⟩ := by
  unfold handle_collect
  rw [h]

/-! ### C3 — collection record bounds -/

/-- C3: the claim fails on the code.  Iteration is newest-first
(`reverse=False`), so the accumulator's first message has the largest id
and the latest date: for the stream (id 10, date 5), (id 7, date 3) the
metadata comes out `from_message_id = 10 > to_message_id = 7` and
`from_datetime = 5 > to_datetime = 3`, and `create_collection_record`
stores the inverted bounds unchanged, violating
`from_message_id ≤ to_message_id` and `from_datetime ≤ to_datetime`. -/
theorem collection_record_inverted :
    (iterLoop 0 {} [⟨10, 5⟩, ⟨7, 3⟩]).md
      = { from_message_id := some 10, to_message_id := some 7,
          from_datetime := some 5, to_datetime := some 3, count := 2 } ∧
    ¬ ((10 : Nat) ≤ 7) ∧
    (create_collection_record 1 10 7 5 3 2).from_message_id = 10 ∧
    (create_collection_record 1 10 7 5 3 2).to_message_id = 7 ∧
    (create_collection_record 1 10 7 5 3 2).from_datetime = 5 ∧
    (create_collection_record 1 10 7 5 3 2).to_datetime = 3 := by
  decide

/-! ### C6 / C8 — zero-message and rate-limit handling -/

theorem update_message_count (md : TGMetadata) (i : Nat) (d : Int) :
    (update_message md i d).count = md.count + 1 := by
  unfold update_message
  split <;> rfl

theorem iterLoop_count (msgs : List TGMsg) (from_datetime : Int)
    (md : TGMetadata) :
    (iterLoop from_datetime md msgs).md.count
      = md.count + (iterLoop from_datetime md msgs).yielded.length := by
  induction msgs generalizing md with
  | nil => simp [iterLoop]
  | cons m rest ih =>
      by_cases h : from_datetime ≤ m.date
      · simp only [iterLoop, if_pos h, List.length_cons]
        rw [ih, update_message_count]
        omega
      · simp [iterLoop, h]

theorem countBeforeSentinel_sentinel (l : List TGMsg) :
    countBeforeSentinel (l.map some ++ [none]) = l.length := by
  induction l with
  | nil => rfl
  | cons m rest ih => simp [countBeforeSentinel, ih]

theorem countBeforeSentinel_map (l : List TGMsg) :
    countBeforeSentinel (l.map some) = l.length := by
  induction l with
  | nil => rfl
  | cons m rest ih => simp [countBeforeSentinel, ih]

/-- C6 counterexample: a range in which the channel yields zero
messages.  `_iterate_messages` raises `ValueError`, the handler's
`except` clause nacks — the task does not ack as the claim states. -/
theorem backfill_no_messages_nacks :
    crawl_messages [] false 0 = .error .noMessages ∧
    handle_collect [] false 0 = ⟨false, 0, .nack⟩ ∧
    (handle_collect [] false 0).action ≠ .ack :=
  ⟨rfl, rfl, by decide⟩

/-- C6 amended: if the channel yields zero messages in the planned
range, no collection record is written and the task nacks (the iterator
raises `ValueError`, caught by the handler's generic exception clause). -/
theorem no_messages_handling (msgs : List TGMsg) (flood : Bool)
    (from_datetime : Int)
    (h : (iterLoop from_datetime {} msgs).md.count = 0) :
    handle_collect msgs flood from_datetime = ⟨false, 0, .nack⟩ := by
  by_cases hc : (iterLoop from_datetime {} msgs).broke = false ∧ flood = true
  · apply handle_collect_of_error msgs flood from_datetime .floodWait
    unfold crawl_messages
    rw [if_pos hc, if_neg (by omega)]
  · apply handle_collect_of_error msgs flood from_datetime .noMessages
    unfold crawl_messages
    rw [if_neg hc, if_pos h]

/-- C6 witness: one message already older than the range start. -/
theorem no_messages_handling_witness :
    handle_collect [⟨10, -5⟩] false 0 = ⟨false, 0, .nack⟩ :=
  no_messages_handling [⟨10, -5⟩] false 0 rfl

/-- C8 counterexample: rate-limit after one collected message.  The
handler records the partial collection and **acks**; the claim predicted
a nack. -/
theorem floodwait_partial_acks :
    crawl_messages [⟨10, 5⟩] true 0
      = .ok ([some ⟨10, 5⟩, none],
             { from_message_id := some 10, to_message_id := some 10,
               from_datetime := some 5, to_datetime := some 5,
               count := 1 }) ∧
    handle_collect [⟨10, 5⟩] true 0 = ⟨true, 1, .ack⟩ ∧
    (handle_collect [⟨10, 5⟩] true 0).action ≠ .nack :=
  ⟨rfl, rfl, by decide⟩

/-- C8 amended: on a rate-limit raised during iteration, if the
accumulator's `count > 0` the iterator yields the `(None, metadata)`
sentinel, the executor records a partial collection record and **acks**;
if `count = 0` the exception propagates and the executor nacks without
writing a record. -/
theorem floodwait_handling (msgs : List TGMsg) (from_datetime : Int)
    (hb : (iterLoop from_datetime {} msgs).broke = false) :
    ((iterLoop from_datetime {} msgs).md.count > 0 →
      crawl_messages msgs true from_datetime
        = .ok ((iterLoop from_datetime {} msgs).yielded.map some ++ [none],
               (iterLoop from_datetime {} msgs).md) ∧
      handle_collect msgs true from_datetime
        = ⟨true, (iterLoop from_datetime {} msgs).md.count, .ack⟩) ∧
    ((iterLoop from_datetime {} msgs).md.count = 0 →
      crawl_messages msgs true from_datetime = .error .floodWait ∧
      handle_collect msgs true from_datetime = ⟨false, 0, .nack⟩) := by
  have hcount := iterLoop_count msgs from_datetime {}
  constructor
  · intro hpos
    have hcrawl : crawl_messages msgs true from_datetime
        = .ok ((iterLoop from_datetime {} msgs).yielded.map some ++ [none],
               (iterLoop from_datetime {} msgs).md) := by
      unfold crawl_messages
      rw [if_pos ⟨hb, rfl⟩, if_pos hpos]
    refine ⟨hcrawl, ?_⟩
    rw [handle_collect_of_ok msgs true from_datetime _ _ hcrawl,
        countBeforeSentinel_sentinel]
    have hlen : (iterLoop from_datetime {} msgs).yielded.length
        = (iterLoop from_datetime {} msgs).md.count := by
      have hzero : ({} : TGMetadata).count = 0 := rfl
      omega
    rw [hlen]
    congr 1
    simp [hpos]
  · intro hzero
    have hcrawl : crawl_messages msgs true from_datetime
        = .error .floodWait := by
      unfold crawl_messages
      rw [if_pos ⟨hb, rfl⟩, if_neg (by omega)]
    exact ⟨hcrawl, handle_collect_of_error msgs true from_datetime _ hcrawl⟩

/-- C8 witness: the rate-limit hits after one message was collected. -/
theorem floodwait_handling_witness :
    (iterLoop 0 ({} : TGMetadata) [⟨10, 5⟩]).broke = false ∧
    handle_collect [⟨10, 5⟩] true 0
      = ⟨true, (iterLoop 0 ({} : TGMetadata) [⟨10, 5⟩]).md.count, .ack⟩ :=
  ⟨rfl, ((floodwait_handling [⟨10, 5⟩] 0 rfl).1 (by decide)).2⟩

/-! ### C4 — KV watch event forwarding -/

/-- C4 counterexample: a put event (delivered with no operation marker)
for session 7, revision 5, carrying the lock payload `"pod-1"` (the
worker instance id).  `update_keys_task` compares the payload against
`APP_NAME = "Chat Parser"`, drops the event, and the local state stays
free instead of becoming locked at revision 5. -/
theorem kv_watch_event_dropped :
    update_keys_task "Chat Parser" "pod-1" (some 7) none 5
        (initRLM [7] "pod-1") = initRLM [7] "pod-1" ∧
    (alGet (update_keys_task "Chat Parser" "pod-1" (some 7) none 5
        (initRLM [7] "pod-1")).states 7).map (·.locked) = some false :=
  ⟨rfl, rfl⟩

/-- C4 amended: the subscriber forwards a bucket watch event to
`on_kv_event` only when the event's decoded value equals the configured
application name.  A forwarded event with no operation marker (how the
store reports a put) sets the session locked at the event's revision; a
forwarded `PURGE` or `DEL` sets it free; a forwarded literal `PUT`
leaves the state fields unchanged (only registering an unknown id);
every event with a different value is dropped entirely. -/
theorem kv_watch_forwarding (app msgVal : String) (rid revision : Nat)
    (op : Option KvOp) (m : RLM) :
    (msgVal ≠ app →
      update_keys_task app msgVal (some rid) op revision m = m) ∧
    (msgVal = app → op = none →
      ∃ st, alGet (update_keys_task app msgVal (some rid) op revision
          m).states rid = some st ∧
        st.version = some revision ∧ st.locked = true) ∧
    (msgVal = app → (op = some .DEL ∨ op = some .PURGE) →
      ∃ st, alGet (update_keys_task app msgVal (some rid) op revision
          m).states rid = some st ∧
        st.version = none ∧ st.locked = false) ∧
    (msgVal = app → op = some .PUT →
      (update_keys_task app msgVal (some rid) op revision m).states
        = alSet m.states rid (getOrNew m rid)) := by
  refine ⟨?_, ?_, ?_, ?_⟩
  · intro h
    unfold update_keys_task
    rw [if_pos h]
  · intro happ hop
    subst hop
    unfold update_keys_task
    rw [if_neg (not_not_intro happ), on_kv_event_put]
    exact ⟨{ getOrNew m rid with version := some revision, locked := true },
      alGet_alSet_self _ _ _, rfl, rfl⟩
  · intro happ hop
    unfold update_keys_task
    rw [if_neg (not_not_intro happ), on_kv_event_del m rid revision op hop]
    exact ⟨{ getOrNew m rid with version := none, locked := false },
      alGet_alSet_self _ _ _, rfl, rfl⟩
  · intro happ hop
    subst hop
    unfold update_keys_task
    rw [if_neg (not_not_intro happ), on_kv_event_put_literal]
    rfl

/-- C4 witness for the amended theorem: a dropped event. -/
theorem kv_watch_forwarding_witness :
    update_keys_task "Chat Parser" "pod-9" (some 3) none 8
        (initRLM [3] "pod-9") = initRLM [3] "pod-9" :=
  (kv_watch_forwarding "Chat Parser" "pod-9" 3 8 none
      (initRLM [3] "pod-9")).1 (by decide)

/-! ### C5 — refresh on sequence-mismatch and not-found -/

theorem alGet_map_snd {α β : Type} (l : List (Nat × α)) (f : α → β)
    (k : Nat) :
    alGet (l.map (fun p => (p.1, f p.2))) k = (alGet l k).map f := by
  induction l with
  | nil => rfl
  | cons p t ih =>
      obtain ⟨k', v'⟩ := p
      by_cases h : k' = k
      · simp only [List.map_cons, alGet_cons, if_pos h]
        rfl
      · simp only [List.map_cons, alGet_cons, if_neg h]
        exact ih

theorem alGet_applyEntries_not_mem (entries : List (Nat × KVEntry)) :
    ∀ acc : List (Nat × ResourceState), ∀ k : Nat,
      (∀ e, (k, e) ∉ entries) →
      alGet (applyEntries acc entries) k = alGet acc k := by
  induction entries with
  | nil => intro acc k _; rfl
  | cons p rest ih =>
      intro acc k h
      obtain ⟨k', e'⟩ := p
      have hne : k' ≠ k := by
        intro hh
        exact h e' (hh ▸ List.mem_cons_self _ _)
      unfold applyEntries
      rw [ih _ k (fun e he => h e (List.mem_cons_of_mem _ he)),
          alGet_alSet_ne _ _ _ _ (fun hh => hne hh.symm)]

theorem alGet_applyEntries_mem (entries : List (Nat × KVEntry))
    (hnd : (entries.map Prod.fst).Nodup) (k : Nat) (e : KVEntry)
    (hmem : (k, e) ∈ entries) :
    ∀ acc : List (Nat × ResourceState),
      ∃ st, alGet (applyEntries acc entries) k = some st ∧
        st.version = some e.revision ∧ st.locked = true := by
  induction entries with
  | nil => simp at hmem
  | cons p rest ih =>
      intro acc
      obtain ⟨k', e'⟩ := p
      rw [List.map_cons, List.nodup_cons] at hnd
      rcases List.mem_cons.mp hmem with h1 | h1
      · injection h1 with hk he
        subst hk
        subst he
        have hget : alGet (applyEntries acc ((k, e) :: rest)) k
            = some { (alGet acc k).getD ⟨k, none, false⟩ with
                     version := some e.revision, locked := true } := by
          unfold applyEntries
          rw [alGet_applyEntries_not_mem rest _ k
                (fun e2 he2 => hnd.1 (List.mem_map.mpr ⟨(k, e2), he2, rfl⟩)),
              alGet_alSet_self]
        exact ⟨_, hget, rfl, rfl⟩
      · exact ih hnd.2 h1 _

theorem reloadStates_states (kv : KVStore) (m : RLM) :
    (reloadStates kv m).states
      = applyEntries (m.states.map (fun p => (p.1, resetState p.2)))
          kv.entries := rfl

theorem reload_listed (kv : KVStore) (m : RLM) (k : Nat) (e : KVEntry)
    (hnd : (kv.entries.map Prod.fst).Nodup) (h : kvGet kv k = some e) :
    ∃ st, alGet (reloadStates kv m).states k = some st ∧
      st.version = some e.revision ∧ st.locked = true := by
  rw [reloadStates_states]
  exact alGet_applyEntries_mem kv.entries hnd k e (alGet_mem _ _ _ h) _

theorem reload_unlisted (kv : KVStore) (m : RLM) (k : Nat)
    (h : kvGet kv k = none) :
    alGet (reloadStates kv m).states k
      = (alGet m.states k).map resetState := by
  rw [reloadStates_states,
      alGet_applyEntries_not_mem kv.entries _ k (alGet_eq_none _ _ h),
      alGet_map_snd]

theorem kvUpdate_of_none (kv : KVStore) (k : Nat) (value : String)
    (last : Nat) (h : kvGet kv k = none) :
    kvUpdate kv k value last = .error .notFound := by
  unfold kvUpdate
  rw [h]

theorem kvUpdate_of_some (kv : KVStore) (k : Nat) (value : String)
    (last : Nat) (e : KVEntry) (h : kvGet kv k = some e) :
    kvUpdate kv k value last
      = if e.revision ≠ last then .error .sequenceMismatch
        else .ok (kv.nextRev,
                  ⟨alSet kv.entries k ⟨value, kv.nextRev⟩,
                   kv.nextRev + 1⟩) := by
  unfold kvUpdate
  rw [h]

theorem refreshUpd_of_notFound (kv : KVStore) (m : RLM) (rid v : Nat)
    (hk : kvGet kv rid = none) :
    refreshUpd none kv m rid v = .ok (kv, m) := by
  unfold refreshUpd kvUpdateF
  rw [kvUpdate_of_none kv rid m.instance_id v hk]
  rfl

theorem refreshUpd_of_mismatch (kv : KVStore) (m : RLM) (rid v : Nat)
    (e : KVEntry) (hk : kvGet kv rid = some e) (hne : e.revision ≠ v) :
    refreshUpd none kv m rid v = .ok (kv, reloadStates kv m) := by
  unfold refreshUpd kvUpdateF
  rw [kvUpdate_of_some kv rid m.instance_id v e hk, if_pos hne]

theorem refreshUpd_of_success (kv : KVStore) (m : RLM) (rid v : Nat)
    (e : KVEntry) (hk : kvGet kv rid = some e) (heq : e.revision = v) :
    refreshUpd none kv m rid v
      = .ok (⟨alSet kv.entries rid ⟨m.instance_id, kv.nextRev⟩,
              kv.nextRev + 1⟩,
             setVersion m rid kv.nextRev) := by
  unfold refreshUpd kvUpdateF
  rw [kvUpdate_of_some kv rid m.instance_id v e hk,
      if_neg (not_not_intro heq)]

/-- C5 counterexample: the current lease is locally locked at revision 3
but its key is absent from the store.  `refresh` performs the update,
the store reports not-found (a plain `KeyValueError`), and the manager
logs and returns: the session's local state is still locked at
revision 3, not marked free as the claim states. -/
theorem refresh_not_found_keeps_state :
    refresh none ⟨[], 0⟩
        ⟨"w", [(5, ⟨5, some 3, true⟩)], some 5⟩
      = .ok (⟨[], 0⟩, ⟨"w", [(5, ⟨5, some 3, true⟩)], some 5⟩) ∧
    (alGet (⟨"w", [(5, ⟨5, some 3, true⟩)], some 5⟩ : RLM).states 5).map
        (·.locked) = some true :=
  ⟨rfl, rfl⟩

/-- C5 amended: `refresh` on the currently-held lease performs
`update(key, instance_id, expect_revision=current)`.  On
sequence-mismatch it performs the full local reload (every listed key
locked at its fetched revision, every unlisted session reset to free)
and returns; on not-found it logs and returns **leaving the local state
unchanged**; on success only the stored revision is advanced. -/
theorem refresh_behavior (kv : KVStore) (m : RLM) (rid v : Nat)
    (st : ResourceState)
    (hnd : (kv.entries.map Prod.fst).Nodup)
    (hc : m.current = some rid) (hs : alGet m.states rid = some st)
    (hv : st.version = some v) :
    (kvGet kv rid = none → refresh none kv m = .ok (kv, m)) ∧
    (∀ e : KVEntry, kvGet kv rid = some e → e.revision ≠ v →
      refresh none kv m = .ok (kv, reloadStates kv m)) ∧
    (∀ e : KVEntry, kvGet kv rid = some e → e.revision = v →
      refresh none kv m
          = .ok (⟨alSet kv.entries rid ⟨m.instance_id, kv.nextRev⟩,
                  kv.nextRev + 1⟩,
                 setVersion m rid kv.nextRev) ∧
      ∃ st', alGet (setVersion m rid kv.nextRev).states rid = some st' ∧
        st'.version = some kv.nextRev ∧ st'.locked = st.locked) ∧
    (∀ k : Nat, ∀ e : KVEntry, kvGet kv k = some e →
      ∃ st', alGet (reloadStates kv m).states k = some st' ∧
        st'.version = some e.revision ∧ st'.locked = true) ∧
    (∀ k : Nat, kvGet kv k = none →
      alGet (reloadStates kv m).states k
        = (alGet m.states k).map resetState) := by
  have hbind : (alGet m.states rid).bind (fun s => s.version) = some v := by
    rw [hs]
    exact hv
  have hre : refresh none kv m = refreshUpd none kv m rid v := by
    rw [refresh_eq_cur none kv m rid hc,
        refreshCur_eq_upd none kv m rid v hbind]
  refine ⟨?_, ?_, ?_, ?_, ?_⟩
  · intro hk
    rw [hre]
    exact refreshUpd_of_notFound kv m rid v hk
  · intro e hk hne
    rw [hre]
    exact refreshUpd_of_mismatch kv m rid v e hk hne
  · intro e hk heq
    constructor
    · rw [hre]
      exact refreshUpd_of_success kv m rid v e hk heq
    · unfold setVersion
      rw [hs]
      exact ⟨{ st with version := some kv.nextRev },
        alGet_alSet_self _ _ _, rfl, rfl⟩
  · intro k e hk
    exact reload_listed kv m k e hnd hk
  · intro k hk
    exact reload_unlisted kv m k hk

/-- C5 witness: a sequence-mismatch (stored revision 9, local 3)
triggers the reload. -/
theorem refresh_behavior_witness :
    refresh none ⟨[(5, ⟨"x", 9⟩)], 10⟩
        ⟨"w", [(5, ⟨5, some 3, true⟩)], some 5⟩
      = .ok (⟨[(5, ⟨"x", 9⟩)], 10⟩,
             reloadStates ⟨[(5, ⟨"x", 9⟩)], 10⟩
               ⟨"w", [(5, ⟨5, some 3, true⟩)], some 5⟩) :=
  (refresh_behavior ⟨[(5, ⟨"x", 9⟩)], 10⟩
      ⟨"w", [(5, ⟨5, some 3, true⟩)], some 5⟩ 5 3 ⟨5, some 3, true⟩
      (by decide) rfl rfl rfl).2.1 ⟨"x", 9⟩ rfl (by decide)

/-! ### C9 — disposition of undeclared gateway errors -/

theorem lock_of_fault (kv : KVStore) (m : RLM) (rid : Nat) (e : KVErr) :
    lock (some e) kv m rid = (false, kv, m) := rfl

theorem unlock_of_fault (kv : KVStore) (m : RLM) (rid : Nat) (e : KVErr) :
    unlock (some e) kv m rid
      = if e.isKVError then .ok (kv, setFree m rid) else .error e := rfl

theorem refreshUpd_fault_seq (kv : KVStore) (m : RLM) (rid v : Nat) :
    refreshUpd (some .sequenceMismatch) kv m rid v
      = .ok (kv, reloadStates kv m) := rfl

theorem refreshUpd_fault_kv (kv : KVStore) (m : RLM) (rid v : Nat)
    (e : KVErr) (h1 : e.isKVError = true) (h2 : e ≠ .sequenceMismatch) :
    refreshUpd (some e) kv m rid v = .ok (kv, m) := by
  cases e with
  | alreadyExists => rfl
  | sequenceMismatch => exact absurd rfl h2
  | notFound => rfl
  | otherKV => rfl
  | otherExc => exact absurd h1 (by decide)

theorem refreshUpd_fault_exc (kv : KVStore) (m : RLM) (rid v : Nat) :
    refreshUpd (some .otherExc) kv m rid v = .error .otherExc := rfl

/-- C9 counterexample: `kv.purge` raising an exception outside the
`KeyValueError` family (a connection timeout, say).  `unlock` catches
only `KeyValueError`, so the exception propagates and the local state is
left locked at revision 1 — not "logs the error and continues with
local state set to free" as the claim states. -/
theorem unlock_error_propagates :
    unlock (some .otherExc) ⟨[(3, ⟨"w", 1⟩)], 2⟩
        ⟨"w", [(3, ⟨3, some 1, true⟩)], some 3⟩ 3
      = .error .otherExc ∧
    (alGet (⟨"w", [(3, ⟨3, some 1, true⟩)], some 3⟩ : RLM).states 3).map
        (·.locked) = some true :=
  ⟨rfl, rfl⟩

/-- C9 amended: `acquire` returns false on every gateway error (it
catches all exceptions).  `refresh` and `release` catch only the
`KeyValueError` family: on such errors refresh returns leaving local
state unchanged (reloading first on sequence-mismatch) and release
continues with the local state set free; an error outside that family
propagates out of both, before any local state change. -/
theorem gateway_error_handling (kv : KVStore) (m : RLM)
    (rid rid2 v : Nat) (st : ResourceState) (e : KVErr)
    (hc : m.current = some rid2) (hs : alGet m.states rid2 = some st)
    (hv : st.version = some v) :
    lock (some e) kv m rid = (false, kv, m) ∧
    (e.isKVError = true →
      unlock (some e) kv m rid = .ok (kv, setFree m rid)) ∧
    (e.isKVError = false → unlock (some e) kv m rid = .error e) ∧
    (e = .sequenceMismatch →
      refresh (some e) kv m = .ok (kv, reloadStates kv m)) ∧
    (e.isKVError = true → e ≠ .sequenceMismatch →
      refresh (some e) kv m = .ok (kv, m)) ∧
    (e.isKVError = false → refresh (some e) kv m = .error e) := by
  have hbind : (alGet m.states rid2).bind (fun s => s.version) = some v := by
    rw [hs]
    exact hv
  have hre : refresh (some e) kv m = refreshUpd (some e) kv m rid2 v := by
    rw [refresh_eq_cur (some e) kv m rid2 hc,
        refreshCur_eq_upd (some e) kv m rid2 v hbind]
  refine ⟨lock_of_fault kv m rid e, ?_, ?_, ?_, ?_, ?_⟩
  · intro h
    rw [unlock_of_fault, if_pos h]
  · intro h
    rw [unlock_of_fault, if_neg (by rw [h]; exact Bool.false_ne_true)]
  · intro h
    subst h
    rw [hre]
    exact refreshUpd_fault_seq kv m rid2 v
  · intro h1 h2
    rw [hre]
    exact refreshUpd_fault_kv kv m rid2 v e h1 h2
  · intro h
    have he : e = .otherExc := by
      cases e <;> first | rfl | exact absurd h (by decide)
    subst he
    rw [hre]
    exact refreshUpd_fault_exc kv m rid2 v

/-- C9 witness: a KV-family error (`otherKV`) on all three operations. -/
theorem gateway_error_handling_witness :
    lock (some .otherKV) ⟨[], 0⟩ ⟨"w", [(3, ⟨3, some 1, true⟩)], some 3⟩ 3
        = (false, ⟨[], 0⟩, ⟨"w", [(3, ⟨3, some 1, true⟩)], some 3⟩) ∧
    refresh (some .otherKV) ⟨[], 0⟩ ⟨"w", [(3, ⟨3, some 1, true⟩)], some 3⟩
        = .ok (⟨[], 0⟩, ⟨"w", [(3, ⟨3, some 1, true⟩)], some 3⟩) :=
  have h := gateway_error_handling ⟨[], 0⟩
    ⟨"w", [(3, ⟨3, some 1, true⟩)], some 3⟩ 3 3 1 ⟨3, some 1, true⟩
    .otherKV rfl rfl rfl
  ⟨h.1, h.2.2.2.2.1 rfl (by decide)⟩

/-! ### C10 — the `locked`/`version` pairing invariant -/

/-- The implicit invariant of `ResourceState`: the two fields are always
written as a consistent pair. -/
def stateInv (m : RLM) : Prop :=
  ∀ p ∈ m.states, (p.2.locked = true ↔ p.2.version ≠ none)

theorem stateInv_setFree (m : RLM) (rid : Nat) (hm : stateInv m) :
    stateInv (setFree m rid) := by
  unfold setFree
  cases hx : alGet m.states rid with
  | none => exact hm
  | some st =>
      intro p hp
      have hp2 : p ∈ alSet m.states rid
          ({ st with version := none, locked := false }) := hp
      rcases mem_alSet _ _ _ _ hp2 with h | h
      · subst h; simp
      · exact hm p h

theorem stateInv_lock (f : Option KVErr) (kv : KVStore) (m : RLM)
    (rid : Nat) (hm : stateInv m) : stateInv (lock f kv m rid).2.2 := by
  unfold lock
  cases kvCreateF f kv rid m.instance_id with
  | error e => exact hm
  | ok pr =>
      obtain ⟨ver, kv'⟩ := pr
      intro p hp
      have hp2 : p ∈ alSet m.states rid
          ({ getOrNew m rid with version := some ver, locked := true }) := hp
      rcases mem_alSet _ _ _ _ hp2 with h | h
      · subst h; simp
      · exact hm p h

theorem stateInv_unlock_ok (f : Option KVErr) (kv : KVStore) (m : RLM)
    (rid : Nat) (kv' : KVStore) (m' : RLM) (hm : stateInv m)
    (h : unlock f kv m rid = .ok (kv', m')) : stateInv m' := by
  cases f with
  | none =>
      rw [unlock_eq_purge] at h
      simp only [Except.ok.injEq, Prod.mk.injEq] at h
      exact h.2 ▸ stateInv_setFree m rid hm
  | some e =>
      rw [unlock_of_fault] at h
      by_cases hkv : e.isKVError = true
      · rw [if_pos hkv] at h
        simp only [Except.ok.injEq, Prod.mk.injEq] at h
        exact h.2 ▸ stateInv_setFree m rid hm
      · rw [if_neg hkv] at h
        exact Except.noConfusion h

theorem stateInv_on_kv_event (m : RLM) (key : Option Nat)
    (op : Option KvOp) (rev : Nat) (hm : stateInv m) :
    stateInv (on_kv_event m key op rev) := by
  cases key with
  | none => exact hm
  | some rid =>
      have hnew : (getOrNew m rid).locked = true ↔
          (getOrNew m rid).version ≠ none := by
        unfold getOrNew
        cases hx : alGet m.states rid with
        | none => simp
        | some st => exact hm (rid, st) (alGet_mem _ _ _ hx)
      by_cases hdel : op = some .DEL ∨ op = some .PURGE
      · rw [on_kv_event_del m rid rev op hdel]
        intro p hp
        have hp2 : p ∈ alSet m.states rid
            ({ getOrNew m rid with version := none, locked := false }) := hp
        rcases mem_alSet _ _ _ _ hp2 with h | h
        · subst h; simp
        · exact hm p h
      · by_cases hput : op = none
        · subst hput
          rw [on_kv_event_put]
          intro p hp
          have hp2 : p ∈ alSet m.states rid
              ({ getOrNew m rid with
                 version := some rev, locked := true }) := hp
          rcases mem_alSet _ _ _ _ hp2 with h | h
          · subst h; simp
          · exact hm p h
        · have hlit : op = some .PUT := by
            cases op with
            | none => exact absurd rfl hput
            | some o =>
                cases o with
                | PUT => rfl
                | DEL => exact absurd (Or.inl rfl) hdel
                | PURGE => exact absurd (Or.inr rfl) hdel
          subst hlit
          rw [on_kv_event_put_literal]
          intro p hp
          have hp2 : p ∈ alSet m.states rid (getOrNew m rid) := hp
          rcases mem_alSet _ _ _ _ hp2 with h | h
          · subst h; exact hnew
          · exact hm p h

theorem stateInv_applyEntries (entries : List (Nat × KVEntry)) :
    ∀ acc : List (Nat × ResourceState),
      (∀ p ∈ acc, (p.2.locked = true ↔ p.2.version ≠ none)) →
      ∀ p ∈ applyEntries acc entries,
        (p.2.locked = true ↔ p.2.version ≠ none) := by
  induction entries with
  | nil => intro acc h; exact h
  | cons q rest ih =>
      intro acc h
      obtain ⟨k, e⟩ := q
      apply ih
      intro p hp
      rcases mem_alSet _ _ _ _ hp with h1 | h1
      · subst h1; simp
      · exact h p h1

theorem stateInv_reload (kv : KVStore) (m : RLM) (_hm : stateInv m) :
    stateInv (reloadStates kv m) := by
  intro p hp
  have hp2 : p ∈ applyEntries
      (m.states.map (fun q => (q.1, resetState q.2))) kv.entries := hp
  refine stateInv_applyEntries kv.entries _ ?_ p hp2
  intro q hq
  obtain ⟨q0, _, hq1⟩ := List.mem_map.mp hq
  rw [← hq1]
  simp [resetState]

theorem stateInv_setVersion (m : RLM) (rid ver last : Nat)
    (st : ResourceState) (hm : stateInv m)
    (hs : alGet m.states rid = some st) (hv : st.version = some last) :
    stateInv (setVersion m rid ver) := by
  unfold setVersion
  rw [hs]
  intro p hp
  have hp2 : p ∈ alSet m.states rid ({ st with version := some ver }) := hp
  rcases mem_alSet _ _ _ _ hp2 with h | h
  · subst h
    have hlock : st.locked = true :=
      (hm (rid, st) (alGet_mem _ _ _ hs)).mpr
        (by rw [hv]; exact fun hh => Option.noConfusion hh)
    simpa using hlock
  · exact hm p h

theorem stateInv_refresh_ok (f : Option KVErr) (kv : KVStore) (m : RLM)
    (kv' : KVStore) (m' : RLM) (hm : stateInv m)
    (h : refresh f kv m = .ok (kv', m')) : stateInv m' := by
  cases hc : m.current with
  | none =>
      have he : refresh f kv m = .ok (kv, m) := by
        unfold refresh
        rw [hc]
      rw [he] at h
      simp only [Except.ok.injEq, Prod.mk.injEq] at h
      exact h.2 ▸ hm
  | some rid =>
      rw [refresh_eq_cur f kv m rid hc] at h
      cases hb : (alGet m.states rid).bind (fun s => s.version) with
      | none =>
          have he : refreshCur f kv m rid = .ok (kv, m) := by
            unfold refreshCur
            rw [hb]
          rw [he] at h
          simp only [Except.ok.injEq, Prod.mk.injEq] at h
          exact h.2 ▸ hm
      | some last =>
          rw [refreshCur_eq_upd f kv m rid last hb] at h
          obtain ⟨st, hsg, hsv⟩ := Option.bind_eq_some.mp hb
          cases f with
          | some e =>
              cases e with
              | sequenceMismatch =>
                  rw [refreshUpd_fault_seq] at h
                  simp only [Except.ok.injEq, Prod.mk.injEq] at h
                  exact h.2 ▸ stateInv_reload kv m hm
              | otherExc =>
                  rw [refreshUpd_fault_exc] at h
                  exact Except.noConfusion h
              | alreadyExists =>
                  rw [refreshUpd_fault_kv kv m rid last .alreadyExists
                      (by decide) (by decide)] at h
                  simp only [Except.ok.injEq, Prod.mk.injEq] at h
                  exact h.2 ▸ hm
              | notFound =>
                  rw [refreshUpd_fault_kv kv m rid last .notFound
                      (by decide) (by decide)] at h
                  simp only [Except.ok.injEq, Prod.mk.injEq] at h
                  exact h.2 ▸ hm
              | otherKV =>
                  rw [refreshUpd_fault_kv kv m rid last .otherKV
                      (by decide) (by decide)] at h
                  simp only [Except.ok.injEq, Prod.mk.injEq] at h
                  exact h.2 ▸ hm
          | none =>
              cases hk : kvGet kv rid with
              | none =>
                  rw [refreshUpd_of_notFound kv m rid last hk] at h
                  simp only [Except.ok.injEq, Prod.mk.injEq] at h
                  exact h.2 ▸ hm
              | some e2 =>
                  by_cases hrev : e2.revision = last
                  · rw [refreshUpd_of_success kv m rid last e2 hk hrev] at h
                    simp only [Except.ok.injEq, Prod.mk.injEq] at h
                    exact h.2 ▸
                      stateInv_setVersion m rid kv.nextRev last st hm hsg hsv
                  · rw [refreshUpd_of_mismatch kv m rid last e2 hk hrev] at h
                    simp only [Except.ok.injEq, Prod.mk.injEq] at h
                    exact h.2 ▸ stateInv_reload kv m hm

theorem stateInv_addMissing (acc : RLM) (rid : Nat) (h : stateInv acc) :
    stateInv (addMissing acc rid) := by
  unfold addMissing
  cases hx : alGet acc.states rid with
  | some st => exact h
  | none =>
      intro p hp
      have hp2 : p ∈ alSet acc.states rid ⟨rid, none, false⟩ := hp
      rcases mem_alSet _ _ _ _ hp2 with h1 | h1
      · subst h1; simp
      · exact h p h1

theorem stateInv_foldl_addMissing (ids : List Nat) :
    ∀ m : RLM, stateInv m → stateInv (ids.foldl addMissing m) := by
  induction ids with
  | nil => intro m hm; exact hm
  | cons i rest ih =>
      intro m hm
      rw [List.foldl_cons]
      exact ih (addMissing m i) (stateInv_addMissing m i hm)

theorem stateInv_update_resources (m : RLM) (ids : List Nat)
    (hm : stateInv m) : stateInv (update_resources m ids) := by
  intro p hp
  have hp2 : p ∈ (ids.foldl addMissing m).states.filter
      (fun p => p.1 ∈ ids ∨ p.2.locked) := hp
  exact stateInv_foldl_addMissing ids m hm p (List.mem_of_mem_filter hp2)

/-- The operations C10 quantifies over, with optional injected gateway
faults where the code catches exceptions. -/
inductive MOp
  | mlock (fault : Option KVErr) (rid : Nat)
  | munlock (fault : Option KVErr) (rid : Nat)
  | mrefresh (fault : Option KVErr)
  | mevent (key : Option Nat) (op : Option KvOp) (revision : Nat)
  | mreload
  | mupdateResources (ids : List Nat)

/-- One sequential step: a raised exception leaves both stores as they
were at the raise. -/
def runOp (s : KVStore × RLM) : MOp → KVStore × RLM
  | .mlock f rid => ((lock f s.1 s.2 rid).2.1, (lock f s.1 s.2 rid).2.2)
  | .munlock f rid =>
      match unlock f s.1 s.2 rid with
      | .ok (kv', m') => (kv', m')
      | .error _ => s
  | .mrefresh f =>
      match refresh f s.1 s.2 with
      | .ok (kv', m') => (kv', m')
      | .error _ => s
  | .mevent key op rev => (s.1, on_kv_event s.2 key op rev)
  | .mreload => (s.1, reloadStates s.1 s.2)
  | .mupdateResources ids => (s.1, update_resources s.2 ids)

def runOps (s : KVStore × RLM) : List MOp → KVStore × RLM
  | [] => s
  | op :: ops => runOps (runOp s op) ops

theorem runOp_munlock_ok (s : KVStore × RLM) (f : Option KVErr)
    (rid : Nat) (kv' : KVStore) (m' : RLM)
    (h : unlock f s.1 s.2 rid = .ok (kv', m')) :
    runOp s (.munlock f rid) = (kv', m') := by
  show (match unlock f s.1 s.2 rid with
        | .ok (kv', m') => (kv', m')
        | .error _ => s) = (kv', m')
  rw [h]

theorem runOp_munlock_err (s : KVStore × RLM) (f : Option KVErr)
    (rid : Nat) (e : KVErr) (h : unlock f s.1 s.2 rid = .error e) :
    runOp s (.munlock f rid) = s := by
  show (match unlock f s.1 s.2 rid with
        | .ok (kv', m') => (kv', m')
        | .error _ => s) = s
  rw [h]

theorem runOp_mrefresh_ok (s : KVStore × RLM) (f : Option KVErr)
    (kv' : KVStore) (m' : RLM) (h : refresh f s.1 s.2 = .ok (kv', m')) :
    runOp s (.mrefresh f) = (kv', m') := by
  show (match refresh f s.1 s.2 with
        | .ok (kv', m') => (kv', m')
        | .error _ => s) = (kv', m')
  rw [h]

theorem runOp_mrefresh_err (s : KVStore × RLM) (f : Option KVErr)
    (e : KVErr) (h : refresh f s.1 s.2 = .error e) :
    runOp s (.mrefresh f) = s := by
  show (match refresh f s.1 s.2 with
        | .ok (kv', m') => (kv', m')
        | .error _ => s) = s
  rw [h]

theorem stateInv_runOp (s : KVStore × RLM) (op : MOp)
    (h : stateInv s.2) : stateInv (runOp s op).2 := by
  cases op with
  | mlock f rid => exact stateInv_lock f s.1 s.2 rid h
  | munlock f rid =>
      cases hu : unlock f s.1 s.2 rid with
      | ok pr =>
          obtain ⟨kv', m'⟩ := pr
          rw [runOp_munlock_ok s f rid kv' m' hu]
          exact stateInv_unlock_ok f s.1 s.2 rid kv' m' h hu
      | error e =>
          rw [runOp_munlock_err s f rid e hu]
          exact h
  | mrefresh f =>
      cases hu : refresh f s.1 s.2 with
      | ok pr =>
          obtain ⟨kv', m'⟩ := pr
          rw [runOp_mrefresh_ok s f kv' m' hu]
          exact stateInv_refresh_ok f s.1 s.2 kv' m' h hu
      | error e =>
          rw [runOp_mrefresh_err s f e hu]
          exact h
  | mevent key op rev => exact stateInv_on_kv_event s.2 key op rev h
  | mreload => exact stateInv_reload s.1 s.2 h
  | mupdateResources ids => exact stateInv_update_resources s.2 ids h

/-- C10: starting from any manager state whose per-session states pair
`locked` with `version` consistently (the initial state does), every
sequential composition of `lock`, `unlock`, `refresh`, `on_kv_event`,
state reload and `update_resources` — with arbitrary injected gateway
faults — preserves: `locked = true` iff `version ≠ none`, for every
tracked session. -/
theorem state_pair_invariant (kv : KVStore) (m : RLM) (h : stateInv m)
    (ops : List MOp) : stateInv (runOps (kv, m) ops).2 := by
  induction ops generalizing kv m with
  | nil => exact h
  | cons op rest ih =>
      have hstep : stateInv (runOp (kv, m) op).2 :=
        stateInv_runOp (kv, m) op h
      exact ih (runOp (kv, m) op).1 (runOp (kv, m) op).2 hstep

/-- C10 witness: a concrete trace over two sessions, exercising lock,
a put watch event, refresh and unlock. -/
theorem state_pair_invariant_witness :
    stateInv (runOps (⟨[], 0⟩, initRLM [1, 2] "w")
      [.mlock none 1, .mevent (some 2) none 7, .mrefresh none,
       .munlock none 1]).2 :=
  state_pair_invariant ⟨[], 0⟩ (initRLM [1, 2] "w")
    (by unfold stateInv initRLM; decide)
    [.mlock none 1, .mevent (some 2) none 7, .mrefresh none,
     .munlock none 1]

/-! ### C7 — lease lifecycle of `handle_schedule`
(src/crawler/routes/schedule.py)

The locking skeleton of the handler on its success path: look up the
subscribed session, `rlm.lock` it; if that fails and the delivery count
is still below the maximum, nack and return; **otherwise** (also when
the lock succeeded) enter `rlm.session().__aenter__()`, which acquires a
further free pool session and reassigns `db_entity`; collect, record,
`msg.ack()`; the `finally` block then unlocks only the reassigned
session.  `poolPick` is the pool session the scoped acquire settles on
(the loop retries until some `lock` succeeds). -/

inductive ExecEv
  | acquire (rid : Nat)
  | release (rid : Nat)
  | acked
  | nacked
deriving DecidableEq, Repr

def handle_schedule_model (kv : KVStore) (m : RLM)
    (subscribed poolPick delivered maxDeliver : Nat) :
    KVStore × RLM × List ExecEv :=
  if (lock none kv m subscribed).1 = false ∧ delivered < maxDeliver then
    ((lock none kv m subscribed).2.1, (lock none kv m subscribed).2.2,
     [.nacked])
  else
    match unlock none
        (lock none (lock none kv m subscribed).2.1
          (lock none kv m subscribed).2.2 poolPick).2.1
        { (lock none (lock none kv m subscribed).2.1
            (lock none kv m subscribed).2.2 poolPick).2.2 with
          current := some poolPick }
        poolPick with
    | .ok (kvF, mF) =>
        (kvF, mF,
         (if (lock none kv m subscribed).1 then [.acquire subscribed]
          else []) ++
         (if (lock none (lock none kv m subscribed).2.1
              (lock none kv m subscribed).2.2 poolPick).1 then
            [.acquire poolPick]
          else []) ++ [.acked, .release poolPick])
    | .error _ =>
        ((lock none (lock none kv m subscribed).2.1
           (lock none kv m subscribed).2.2 poolPick).2.1,
         { (lock none (lock none kv m subscribed).2.1
             (lock none kv m subscribed).2.2 poolPick).2.2 with
           current := some poolPick },
         (if (lock none kv m subscribed).1 then [.acquire subscribed]
          else []) ++
         (if (lock none (lock none kv m subscribed).2.1
              (lock none kv m subscribed).2.2 poolPick).1 then
            [.acquire poolPick]
          else []) ++ [.acked])

/-- C7 counterexample: empty bucket, subscribed session 1, pool pick 2,
first delivery.  The handler acquires lease 1, then additionally
acquires lease 2 via `session()`, acks, and releases only lease 2 in its
`finally` block — after the ack.  Lease 1 is never released: it is still
present in the store when the handler completes, refuting "every
acquired lease is released exactly once before the ack" and "no lease
acquired within the handler remains held". -/
theorem schedule_lease_leak :
    (handle_schedule_model ⟨[], 0⟩ (initRLM [1, 2] "w") 1 2 0 10).2.2
      = [.acquire 1, .acquire 2, .acked, .release 2] ∧
    ExecEv.release 1 ∉
      (handle_schedule_model ⟨[], 0⟩ (initRLM [1, 2] "w") 1 2 0 10).2.2 ∧
    kvGet (handle_schedule_model ⟨[], 0⟩ (initRLM [1, 2] "w") 1 2 0 10).1 1
      = some ⟨"w", 0⟩ ∧
    kvGet (handle_schedule_model ⟨[], 0⟩ (initRLM [1, 2] "w") 1 2 0 10).1 2
      = none := by
  refine ⟨rfl, ?_, rfl, rfl⟩
  decide

theorem alGet_filter_keep {α : Type} (l : List (Nat × α)) (k k' : Nat)
    (h : k' ≠ k) :
    alGet (l.filter (fun p => p.1 ≠ k)) k' = alGet l k' := by
  induction l with
  | nil => rfl
  | cons p t ih =>
      obtain ⟨k₀, v₀⟩ := p
      by_cases h₀ : k₀ = k
      · subst h₀
        rw [show List.filter (fun p => decide ¬p.1 = k₀) ((k₀, v₀) :: t)
              = List.filter (fun p => decide ¬p.1 = k₀) t by
            simp [List.filter_cons]]
        rw [ih, alGet_cons, if_neg (fun hh => h hh.symm)]
      · rw [show List.filter (fun p => decide ¬p.1 = k)
              ((k₀, v₀) :: t)
              = (k₀, v₀) :: List.filter (fun p => decide ¬p.1 = k) t by
            simp [List.filter_cons, h₀]]
        rw [alGet_cons, alGet_cons, ih]

/-- C7 amended: on the incremental path, when the subscribed session's
lock succeeds the handler acquires a second lease through the session
pool; it acks and only then releases the pool lease (in the `finally`
block); the subscribed session's lease is still held when the handler
completes, and stays held until its TTL expires. -/
theorem lock_of_absent_eq (kv : KVStore) (m : RLM) (s : Nat)
    (h : kvGet kv s = none) :
    lock none kv m s
      = (true,
         ⟨alSet kv.entries s ⟨m.instance_id, kv.nextRev⟩, kv.nextRev + 1⟩,
         withStates m
           (alSet m.states s
             ({ getOrNew m s with
                version := some kv.nextRev, locked := true }))) := by
  unfold lock kvCreateF kvCreate
  rw [h]
  rfl

/-- C7 amended: on the incremental path, when the subscribed session's
lock succeeds the handler acquires a second lease through the session
pool; it acks and only then releases the pool lease (in the `finally`
block); the subscribed session's lease is still held when the handler
completes, and stays held until its TTL expires. -/
theorem schedule_lease_lifecycle (kv : KVStore) (m : RLM)
    (s p delivered maxDeliver : Nat)
    (hs : kvGet kv s = none) (hp : kvGet kv p = none) (hne : p ≠ s) :
    (handle_schedule_model kv m s p delivered maxDeliver).2.2
      = [.acquire s, .acquire p, .acked, .release p] ∧
    kvGet (handle_schedule_model kv m s p delivered maxDeliver).1 s
      = some ⟨m.instance_id, kv.nextRev⟩ ∧
    kvGet (handle_schedule_model kv m s p delivered maxDeliver).1 p
      = none := by
  have hL1 := lock_of_absent_eq kv m s hs
  set kv1 : KVStore :=
    ⟨alSet kv.entries s ⟨m.instance_id, kv.nextRev⟩, kv.nextRev + 1⟩
    with hkv1def
  set m1 : RLM :=
    withStates m
      (alSet m.states s
        ({ getOrNew m s with version := some kv.nextRev, locked := true }))
    with hm1def
  have hkv1s : kvGet kv1 s = some ⟨m.instance_id, kv.nextRev⟩ := by
    show alGet (alSet kv.entries s _) s = _
    rw [alGet_alSet_self]
  have hkv1p : kvGet kv1 p = none := by
    show alGet (alSet kv.entries s _) p = _
    rw [alGet_alSet_ne _ _ _ _ hne]
    exact hp
  have hL2 := lock_of_absent_eq kv1 m1 p hkv1p
  set kv2 : KVStore :=
    ⟨alSet kv1.entries p ⟨m1.instance_id, kv1.nextRev⟩, kv1.nextRev + 1⟩
    with hkv2def
  have hkv2s : kvGet kv2 s = some ⟨m.instance_id, kv.nextRev⟩ := by
    show alGet (alSet kv1.entries p _) s = _
    rw [alGet_alSet_ne _ _ _ _ (fun hh => hne hh.symm)]
    exact hkv1s
  have h1a : (lock none kv m s).1 = true := by rw [hL1]
  have h1b : (lock none kv m s).2.1 = kv1 := by rw [hL1]
  have h1c : (lock none kv m s).2.2 = m1 := by rw [hL1]
  have h2a : (lock none kv1 m1 p).1 = true := by rw [hL2]
  have h2b : (lock none kv1 m1 p).2.1 = kv2 := by rw [hL2]
  unfold handle_schedule_model
  simp only [h1a, h1b, h1c]
  rw [if_neg (by simp)]
  simp only [h2a, h2b]
  rw [unlock_eq_purge]
  simp only [if_true]
  refine ⟨rfl, ?_, ?_⟩
  · show kvGet (kvPurge kv2 p) s = some _
    show alGet (kv2.entries.filter (fun q => q.1 ≠ p)) s = some _
    rw [alGet_filter_keep _ p s (fun hh => hne hh.symm)]
    exact hkv2s
  · exact kvGet_kvPurge_self kv2 p

/-- C7 witness: the concrete two-session store. -/
theorem schedule_lease_lifecycle_witness :
    (handle_schedule_model ⟨[], 5⟩ (initRLM [1, 2] "wk") 1 2 0 10).2.2
      = [.acquire 1, .acquire 2, .acked, .release 2] ∧
    kvGet (handle_schedule_model ⟨[], 5⟩ (initRLM [1, 2] "wk") 1 2 0 10).1 1
      = some ⟨"wk", 5⟩ :=
  have h := schedule_lease_lifecycle ⟨[], 5⟩ (initRLM [1, 2] "wk") 1 2 0 10
    rfl rfl (by decide)
  ⟨h.1, h.2.1⟩

end Crawler
